import Mathlib

/-!
Shallow embedding of the storage/read-path core of the clio reporting
backend (`src/backend/BackendInterface.cpp` and
`src/backend/CassandraBackend.h`), together with proofs settling the
spec claims about it.

Conventions of the embedding:
* 256-bit keys (`ripple::uint256`) are modelled as `Nat`; `firstKey` is the
  all-zero sentinel.
* `Blob` (`std::vector<unsigned char>`) is a list of byte values; the empty
  list is the tombstone / absent marker, as in the store.
* Fallible C++ calls (`std::optional`) return `Option`; paths that throw
  return `Option`/an explicit outcome constructor.
* The in-memory cache (`SimpleCache`) and the concrete Cassandra row reads
  (`doFetchLedgerObject(s)`, `doFetchSuccessorKey`) are not part of the
  given sources; where a definition is needed it is modelled from the
  spec's description and marked as such.
-/

/-- 256-bit object key (`ripple::uint256`), modelled as a natural number. -/
abbrev Key := Nat

/-- `Backend::Blob` (`std::vector<unsigned char>`): a sequence of byte values. -/
abbrev Blob := List Nat

/-- The all-zeros sentinel key bracketing the key space from below. -/
def firstKey : Key := 0

/-- `Backend::LedgerRange`: the persisted/in-memory `[minSequence, maxSequence]` pair. -/
structure LedgerRange where
  minSequence : Nat
  maxSequence : Nat
deriving DecidableEq

/-- `Backend::LedgerObject`: a key paired with its serialized blob. -/
structure LedgerObject where
  key : Key
  blob : Blob
deriving DecidableEq

/-- `Backend::LedgerPage`: result of `fetchLedgerPage` — objects plus an optional forward cursor. -/
structure LedgerPage where
  objects : List LedgerObject
  cursor : Option Key
deriving DecidableEq

/-- Modelled from the spec: `CassandraBackend::doFetchLedgerObject` is not in
the given sources (only declared); per the spec's object read algorithm it
selects the blob of the row with greatest `seq ≤ sequence` and maps an empty
blob (tombstone, or no row at all) to `none`.  `rawRead` stands for the raw
row resolution (empty blob when the row is absent). -/
def doFetchLedgerObject (rawRead : Key → Nat → Blob) (key : Key) (sequence : Nat) :
    Option Blob :=
  if (rawRead key sequence).length = 0 then none else some (rawRead key sequence)

/-- Modelled from the spec: `CassandraBackend::doFetchLedgerObjects` is not in
the given sources (only declared); per the spec's batching description it
issues one independent read per key and assembles the raw blobs into the
output vector at each key's original index (empty blob for an absent row). -/
def doFetchLedgerObjects (rawRead : Key → Nat → Blob) (keys : List Key) (sequence : Nat) :
    List Blob :=
  keys.map (fun k => rawRead k sequence)

/-- `BackendInterface::fetchLedgerObject` (BackendInterface.cpp): consult the
cache; on a hit return the cached blob, on a miss fall back to
`doFetchLedgerObject`.  `cacheGet` abstracts `cache_.get`, `doFetch`
abstracts the virtual `doFetchLedgerObject`. -/
def fetchLedgerObject (cacheGet : Key → Nat → Option Blob)
    (doFetch : Key → Nat → Option Blob) (key : Key) (sequence : Nat) : Option Blob :=
  match cacheGet key sequence with
  | some obj => some obj
  | none => doFetch key sequence

/-- The reassembly loop of `BackendInterface::fetchLedgerObjects`: walk the
result vector; every slot still holding an empty blob is a cache miss and
receives the next batched read (`objs[j]`, `++j`).  Reading past the end of
`objs` is out of bounds in the C++ (it cannot happen when the batch result
has one entry per miss); the model returns an empty blob there. -/
def reassembleLoop : List Blob → List Blob → List Blob
  | [], _ => []
  | r :: rs, objs =>
    if r.length = 0 then objs.headD [] :: reassembleLoop rs objs.tail
    else r :: reassembleLoop rs objs

/-- `BackendInterface::fetchLedgerObjects` (BackendInterface.cpp): one cache
lookup per key filling `results` (cache hits) and `misses` (in input order);
if there are misses, batch them through `doFetchLedgerObjects` and reassemble
preserving the input order. -/
def fetchLedgerObjects (cacheGet : Key → Nat → Option Blob)
    (doFetchMulti : List Key → Nat → List Blob) (keys : List Key) (sequence : Nat) :
    List Blob :=
  let results := keys.map (fun k => (cacheGet k sequence).getD [])
  let misses := keys.filter (fun k => (cacheGet k sequence).isNone)
  if misses.length ≠ 0 then reassembleLoop results (doFetchMulti misses sequence)
  else results

/-- `BackendInterface::fetchSuccessorKey` (BackendInterface.cpp): cache
`getSuccessor` first (which yields a whole `LedgerObject`), falling back to
the virtual `doFetchSuccessorKey` on a miss. -/
def fetchSuccessorKey (cacheSucc : Key → Nat → Option LedgerObject)
    (dbSucc : Key → Nat → Option Key) (key : Key) (ledgerSequence : Nat) : Option Key :=
  match cacheSucc key ledgerSequence with
  | some succ => some succ.key
  | none => dbSucc key ledgerSequence

/-- The key-collection loop of `BackendInterface::fetchLedgerPage`:
`while (keys.size() < limit)` take the successor of the last collected key
(or of the cursor / `firstKey` when nothing is collected yet), stopping when
no successor exists.  The remaining capacity `limit - keys.size()` is the
recursion fuel. -/
def collectLedgerPageKeys (succ : Key → Nat → Option Key) (sequence : Nat) :
    Key → Nat → List Key
  | _, 0 => []
  | cur, n + 1 =>
    match succ cur sequence with
    | none => []
    | some k => k :: collectLedgerPageKeys succ sequence k n

/-- `BackendInterface::fetchLedgerPage` (BackendInterface.cpp): collect up to
`limit` successor keys starting from `cursor` (or `firstKey`), batch-fetch
their objects via `fetchLedgerObjects`, pair keys with blobs, and set the
forward cursor to the last object's key when at least `limit` objects were
returned (`page.objects.back()` on an empty page is out of bounds in the
C++; the model yields no cursor there). -/
def fetchLedgerPage (cacheSucc : Key → Nat → Option LedgerObject)
    (dbSucc : Key → Nat → Option Key) (cacheGet : Key → Nat → Option Blob)
    (rawRead : Key → Nat → Blob) (cursor : Option Key) (ledgerSequence : Nat)
    (limit : Nat) : LedgerPage :=
  let keys := collectLedgerPageKeys (fetchSuccessorKey cacheSucc dbSucc) ledgerSequence
    (cursor.getD firstKey) limit
  let objects := fetchLedgerObjects cacheGet (doFetchLedgerObjects rawRead) keys ledgerSequence
  let pageObjects := (keys.zip objects).map (fun p => LedgerObject.mk p.1 p.2)
  { objects := pageObjects
    cursor := if limit ≤ pageObjects.length then pageObjects.getLast?.map LedgerObject.key
      else none }

/-- A list of keys forms a successor chain from `start`: each element is the
successor of the previous one (with `start` preceding the first). -/
def chainFrom (succ : Key → Option Key) : Key → List Key → Prop
  | _, [] => True
  | cur, k :: ks => succ cur = some k ∧ chainFrom succ k ks

/-- Modelled from the spec: `BackendInterface::updateRange` is not in the
given sources (BackendInterface.h is only referenced); per the spec's range
protocol the in-memory copy is established as `[S, S]` when empty and
otherwise has its `max` advanced to `S`. -/
def updateRange (range : Option LedgerRange) (newMax : Nat) : Option LedgerRange :=
  match range with
  | none => some { minSequence := newMax, maxSequence := newMax }
  | some r => some { minSequence := r.minSequence, maxSequence := newMax }

/-- `BackendInterface::finishWrites` (BackendInterface.cpp): run
`doFinishWrites` (its boolean result is the `commitRes` parameter here) and,
only when it succeeded, advance the in-memory range to `ledgerSequence`.
Returns the commit result together with the new in-memory range. -/
def finishWrites (commitRes : Bool) (range : Option LedgerRange)
    (ledgerSequence : Nat) : Bool × Option LedgerRange :=
  if commitRes then (commitRes, updateRange range ledgerSequence)
  else (commitRes, range)

/-- Driver outcome of one `cass_session_execute` round trip.  The
constructors are exactly the error codes `CassandraBackend.h` distinguishes;
`serverOtherError` stands for every other non-OK `CassError`. -/
inductive CassError where
  | ok
  | libNoHostsAvailable
  | libRequestTimedOut
  | serverUnavailable
  | serverOverloaded
  | serverReadTimeout
  | serverInvalidQuery
  | serverOtherError
deriving DecidableEq

/-- `Backend::isTimeout` (CassandraBackend.h): the five timeout-class driver
error codes. -/
def isTimeout (rc : CassError) : Bool :=
  rc = CassError.libNoHostsAvailable || rc = CassError.libRequestTimedOut ||
    rc = CassError.serverUnavailable || rc = CassError.serverOverloaded ||
    rc = CassError.serverReadTimeout

/-- Loop body of `CassandraBackend::executeSyncUpdate`: re-execute while the
driver reports any non-OK code, recording in `timedOut` that at least one
attempt failed; once the driver reports OK, read the conditional update's
result row.  `appliedColumn` describes that final row: `none` = no row,
`some none` = the boolean column could not be read, `some (some b)` = the
server's applied flag.  The code returns `applied || timedOut` when the flag
is readable and `false` otherwise; the model returns `none` when the
modelled attempts are exhausted without an OK (the C++ loops on). -/
def executeSyncUpdateLoop (appliedColumn : Option (Option Bool)) :
    List CassError → Bool → Option Bool
  | [], _ => none
  | rc :: rest, timedOut =>
    if rc = CassError.ok then
      some (match appliedColumn with
        | none => false
        | some none => false
        | some (some success) => success || timedOut)
    else executeSyncUpdateLoop appliedColumn rest true

/-- `CassandraBackend::executeSyncUpdate` (CassandraBackend.h): the retry
loop entered with `timedOut = false`. -/
def executeSyncUpdate (attempts : List CassError)
    (appliedColumn : Option (Option Bool)) : Option Bool :=
  executeSyncUpdateLoop appliedColumn attempts false

/-- How one call to `CassandraBackend::executeSyncRead` resolves. -/
inductive SyncReadOutcome where
  | success
  | databaseTimeout
  | invalidQueryError
deriving DecidableEq

/-- `CassandraBackend::executeSyncRead` (CassandraBackend.h): execute; on a
timeout-class code throw `DatabaseTimeout`; on `CASS_ERROR_SERVER_INVALID_QUERY`
throw a plain runtime error; on any other non-OK code loop and re-execute; on
OK return the result.  `none` means the modelled attempts were exhausted
while the loop kept retrying. -/
def executeSyncRead : List CassError → Option SyncReadOutcome
  | [] => none
  | rc :: rest =>
    if isTimeout rc then some SyncReadOutcome.databaseTimeout
    else if rc = CassError.serverInvalidQuery then some SyncReadOutcome.invalidQueryError
    else if rc = CassError.ok then some SyncReadOutcome.success
    else executeSyncRead rest

/-- Behaviour of one underlying `hardFetchLedgerRange()` call: return a
value, throw `DatabaseTimeout`, or throw some other exception. -/
inductive HardFetchResult where
  | value (r : Option LedgerRange)
  | databaseTimeout
  | otherException
deriving DecidableEq

/-- Result of `hardFetchLedgerRangeNoThrow`, with the number of underlying
calls consumed. -/
inductive NoThrowOutcome where
  | returns (r : Option LedgerRange) (calls : Nat)
  | throws (calls : Nat)
  | spins (calls : Nat)
deriving DecidableEq

/-- `BackendInterface::hardFetchLedgerRangeNoThrow` (BackendInterface.cpp):
`while (true) { try { return hardFetchLedgerRange(); } catch (DatabaseTimeout&) {} }`.
The input list gives the successive behaviours of the underlying call; the
wrapper returns the first value, swallows `DatabaseTimeout` and retries, and
lets any other exception propagate.  `spins` records that the modelled call
results were exhausted with the loop still running. -/
def hardFetchLedgerRangeNoThrow : List HardFetchResult → NoThrowOutcome
  | [] => NoThrowOutcome.spins 0
  | HardFetchResult.value r :: _ => NoThrowOutcome.returns r 1
  | HardFetchResult.databaseTimeout :: rest =>
    match hardFetchLedgerRangeNoThrow rest with
    | NoThrowOutcome.returns r n => NoThrowOutcome.returns r (n + 1)
    | NoThrowOutcome.throws n => NoThrowOutcome.throws (n + 1)
    | NoThrowOutcome.spins n => NoThrowOutcome.spins (n + 1)
  | HardFetchResult.otherException :: _ => NoThrowOutcome.throws 1

/-- Program counter of one thread issuing an async write through
`CassandraBackend::executeAsyncWrite` (with `isRetry = false`):
`toAdmit` = about to enter `incremementOutstandingRequestCount`;
`admitted` = the guarded wait on `throttleCv_` has been passed and
`throttleMutex_` released, but `++numRequestsOutstanding_` has not run yet
(the increment sits outside the mutex scope in the source);
`issued` = the increment ran and the request is in flight. -/
inductive WriterPc where
  | toAdmit
  | admitted
  | issued
deriving DecidableEq

/-- Shared state of the async write pipeline: the admission cap
(`maxRequestsOutstanding`), the atomic counter `numRequestsOutstanding_`,
and the program counters of the issuing threads. -/
structure PipelineState where
  cap : Nat
  numRequestsOutstanding : Nat
  writers : List WriterPc
deriving DecidableEq

/-- `CassandraBackend::canAddRequest` (CassandraBackend.h). -/
def canAddRequest (s : PipelineState) : Bool :=
  s.numRequestsOutstanding < s.cap

/-- Atomic events of the pipeline.  `passGate i` models thread `i` returning
from the guarded region of `incremementOutstandingRequestCount` (the check
`canAddRequest`, performed under `throttleMutex_`, succeeded and the mutex
was released); `increment i` models the subsequent `++numRequestsOutstanding_`,
which the source performs after the mutex scope has ended; `complete` models
a driver callback running `decrementOutstandingRequestCount` for an issued
request. -/
inductive PipelineAction where
  | passGate (i : Nat)
  | increment (i : Nat)
  | complete
deriving DecidableEq

/-- One interleaving step of the pipeline; `none` when the action is not
enabled in the given state (a disabled action corresponds to a thread that
is still blocked or has nothing to do). -/
def pipelineStep (s : PipelineState) : PipelineAction → Option PipelineState
  | PipelineAction.passGate i =>
    match s.writers.get? i with
    | some WriterPc.toAdmit =>
      if canAddRequest s then
        some { s with writers := s.writers.set i WriterPc.admitted }
      else none
    | _ => none
  | PipelineAction.increment i =>
    match s.writers.get? i with
    | some WriterPc.admitted =>
      some { s with numRequestsOutstanding := s.numRequestsOutstanding + 1,
                    writers := s.writers.set i WriterPc.issued }
    | _ => none
  | PipelineAction.complete =>
    if s.numRequestsOutstanding = 0 then none
    else some { s with numRequestsOutstanding := s.numRequestsOutstanding - 1 }

/-- Run a sequence of pipeline actions from a state; `none` as soon as an
action is not enabled. -/
def runPipeline (s : PipelineState) : List PipelineAction → Option PipelineState
  | [] => some s
  | a :: rest =>
    match pipelineStep s a with
    | some s2 => runPipeline s2 rest
    | none => none

/-- A value bound into a prepared statement. -/
inductive BoundValue where
  | boolean (b : Bool)
  | bytes (data : Blob)
  | bigint (v : Int)
deriving DecidableEq

/-- Binding state of a `CassandraStatement`: which value has been bound to
which parameter index, plus the running `curBindingIndex_`. -/
structure CassandraStatementState where
  bindings : List (Nat × BoundValue)
  curBindingIndex : Nat
deriving DecidableEq

/-- A freshly prepared `CassandraStatement`: nothing bound, index 0. -/
def emptyStatement : CassandraStatementState :=
  { bindings := [], curBindingIndex := 0 }

/-- `CassandraStatement::bindNextBoolean` (CassandraBackend.h): calls
`cass_statement_bind_bool(statement_, 1, val)` — the parameter index is the
literal `1`, not `curBindingIndex_` — and then increments `curBindingIndex_`. -/
def bindNextBoolean (st : CassandraStatementState) (val : Bool) :
    CassandraStatementState :=
  { bindings := st.bindings ++ [(1, BoundValue.boolean val)]
    curBindingIndex := st.curBindingIndex + 1 }

/-- `CassandraStatement::bindNextInt(int64_t)` (CassandraBackend.h): binds at
`curBindingIndex_` and increments it. -/
def bindNextInt (st : CassandraStatementState) (value : Int) :
    CassandraStatementState :=
  { bindings := st.bindings ++ [(st.curBindingIndex, BoundValue.bigint value)]
    curBindingIndex := st.curBindingIndex + 1 }

/-- `CassandraStatement::bindNextInt(uint32_t)` (CassandraBackend.h): widens
the 32-bit value to `int64_t` and delegates. -/
def bindNextIntU32 (st : CassandraStatementState) (value : Nat) :
    CassandraStatementState :=
  bindNextInt st (Int.ofNat (value % 2 ^ 32))

/-- The conditional range-advance statement built by
`CassandraBackend::doFinishWrites` on `updateLedgerRange_`:
`bindNextInt(ledgerSequence_); bindNextBoolean(true); bindNextInt(ledgerSequence_ - 1)`
with `ledgerSequence_` a `uint32_t` (so the `- 1` wraps modulo `2^32`). -/
def doFinishWritesCasStatement (ledgerSequence : Nat) : CassandraStatementState :=
  bindNextIntU32
    (bindNextBoolean (bindNextIntU32 emptyStatement ledgerSequence) true)
    (ledgerSequence % 2 ^ 32 + 2 ^ 32 - 1)

/-- The initial range-insert statement built by
`CassandraBackend::doFinishWrites` when no range exists yet:
`bindNextInt(ledgerSequence_); bindNextBoolean(false); bindNextInt(ledgerSequence_)`. -/
def doFinishWritesInsertStatement (ledgerSequence : Nat) : CassandraStatementState :=
  bindNextIntU32
    (bindNextBoolean (bindNextIntU32 emptyStatement ledgerSequence) false)
    ledgerSequence

/-- Observable effect of `CassandraBackend::decrementOutstandingRequestCount`:
the counter after the call, and which condition variables were signalled. -/
structure DecrementOutcome where
  numRequestsOutstanding : Nat
  throttleNotified : Bool
  syncNotified : Bool
deriving DecidableEq

/-- `CassandraBackend::decrementOutstandingRequestCount` (CassandraBackend.h):
throws (`none`) when the counter is already zero; otherwise decrements,
always notifies `throttleCv_`, and notifies `syncCv_` exactly when the
decremented counter is zero. -/
def decrementOutstandingRequestCount : Nat → Option DecrementOutcome
  | 0 => none
  | n + 1 =>
    some { numRequestsOutstanding := n, throttleNotified := true, syncNotified := n == 0 }

/-- Concrete cache used by the witnesses: key 1 is cached with blob `[5]`,
everything else misses. -/
def wCache : Key → Nat → Option Blob := fun k _ => if k = 1 then some [5] else none

/-- Concrete raw store used by the witnesses: key 2 holds blob `[7]`, every
other key resolves to the empty blob (tombstone / absent). -/
def wRaw : Key → Nat → Blob := fun k _ => if k = 2 then [7] else []

theorem fetchLedgerObject_getD_of_miss (cacheGet : Key → Nat → Option Blob)
    (rawRead : Key → Nat → Blob) (k : Key) (sequence : Nat)
    (hc : cacheGet k sequence = none) :
    (fetchLedgerObject cacheGet (doFetchLedgerObject rawRead) k sequence).getD [] =
      rawRead k sequence := by
  by_cases hr : (rawRead k sequence).length = 0
  · simp [fetchLedgerObject, doFetchLedgerObject, hc, hr, List.length_eq_zero.mp hr]
  · simp [fetchLedgerObject, doFetchLedgerObject, hc, hr]

theorem fetchLedgerObject_getD_of_hit (cacheGet : Key → Nat → Option Blob)
    (rawRead : Key → Nat → Blob) (k : Key) (sequence : Nat) (b : Blob)
    (hc : cacheGet k sequence = some b) :
    (fetchLedgerObject cacheGet (doFetchLedgerObject rawRead) k sequence).getD [] = b := by
  simp [fetchLedgerObject, hc]

theorem reassembleLoop_eq (cacheGet : Key → Nat → Option Blob)
    (rawRead : Key → Nat → Blob) (sequence : Nat) :
    ∀ keys : List Key, (∀ k ∈ keys, cacheGet k sequence ≠ some ([] : Blob)) →
    reassembleLoop (keys.map fun k => (cacheGet k sequence).getD [])
      ((keys.filter fun k => (cacheGet k sequence).isNone).map fun k => rawRead k sequence) =
      keys.map fun k => (fetchLedgerObject cacheGet (doFetchLedgerObject rawRead) k sequence).getD []
  | [], _ => rfl
  | k :: ks, h => by
    have hks : ∀ k' ∈ ks, cacheGet k' sequence ≠ some ([] : Blob) :=
      fun k' hk' => h k' (List.mem_cons_of_mem _ hk')
    have hrest := reassembleLoop_eq cacheGet rawRead sequence ks hks
    cases hc : cacheGet k sequence with
    | none =>
      rw [List.map_cons, List.map_cons, List.filter_cons_of_pos (by simp [hc]),
        List.map_cons, hc]
      show reassembleLoop (([] : Blob) :: _) _ = _
      rw [reassembleLoop, if_pos (show (([] : Blob).length = 0) by simp)]
      simp only [List.headD_cons, List.tail_cons]
      rw [hrest, fetchLedgerObject_getD_of_miss cacheGet rawRead k sequence hc]
    | some b =>
      have hb : b ≠ [] := fun hb0 => h k (List.mem_cons_self _ _) (hb0 ▸ hc)
      have hlen : ¬(some b |>.getD ([] : Blob)).length = 0 := by
        simpa using fun h0 => hb (List.length_eq_zero.mp h0)
      rw [List.map_cons, List.map_cons, List.filter_cons_of_neg (by simp [hc]), hc]
      rw [reassembleLoop, if_neg hlen]
      rw [hrest, fetchLedgerObject_getD_of_hit cacheGet rawRead k sequence b hc]
      rfl

theorem fetchLedgerObjects_eq_map (cacheGet : Key → Nat → Option Blob)
    (rawRead : Key → Nat → Blob) (keys : List Key) (sequence : Nat)
    (hcache : ∀ k ∈ keys, cacheGet k sequence ≠ some ([] : Blob)) :
    fetchLedgerObjects cacheGet (doFetchLedgerObjects rawRead) keys sequence =
      keys.map fun k =>
        (fetchLedgerObject cacheGet (doFetchLedgerObject rawRead) k sequence).getD [] := by
  simp only [fetchLedgerObjects, doFetchLedgerObjects]
  by_cases hm : (keys.filter fun k => (cacheGet k sequence).isNone).length ≠ 0
  · rw [if_pos hm]
    exact reassembleLoop_eq cacheGet rawRead sequence keys hcache
  · rw [if_neg hm]
    have hnil : (keys.filter fun k => (cacheGet k sequence).isNone) = [] :=
      List.length_eq_zero.mp (by omega)
    have hall : ∀ k ∈ keys, ¬((cacheGet k sequence).isNone = true) := by
      intro k hk
      exact List.filter_eq_nil_iff.mp hnil k hk
    refine List.map_congr_left ?_
    intro k hk
    cases hc : cacheGet k sequence with
    | none => exact absurd (by simp [hc]) (hall k hk)
    | some b => simp [fetchLedgerObject, hc]

/-- Claim C1: for every key vector `V` and sequence `S`, `fetchLedgerObjects(V, S)`
returns a vector of the same length as `V` whose `i`-th element equals the
result of `fetchLedgerObject(V[i], S)` (with the empty blob standing for
`none`, the store's tombstone convention); cache hits and batched misses are
reassembled preserving the input order, for every mix of cache hits, cache
misses, and empty-blob entries.  The hypothesis — the cache never yields an
empty blob, since an empty blob removes a key from the cache — comes from
the spec's cache contract. -/
theorem fetchLedgerObjects_preserves_order (cacheGet : Key → Nat → Option Blob)
    (rawRead : Key → Nat → Blob) (keys : List Key) (sequence : Nat)
    (hcache : ∀ k ∈ keys, cacheGet k sequence ≠ some ([] : Blob)) :
    (fetchLedgerObjects cacheGet (doFetchLedgerObjects rawRead) keys sequence).length =
      keys.length ∧
    fetchLedgerObjects cacheGet (doFetchLedgerObjects rawRead) keys sequence =
      keys.map fun k =>
        (fetchLedgerObject cacheGet (doFetchLedgerObject rawRead) k sequence).getD [] := by
  have h := fetchLedgerObjects_eq_map cacheGet rawRead keys sequence hcache
  exact ⟨by rw [h, List.length_map], h⟩

theorem fetchLedgerObjects_preserves_order_witness :
    (∀ k ∈ [1, 2, 3], wCache k 10 ≠ some ([] : Blob)) ∧
    ((fetchLedgerObjects wCache (doFetchLedgerObjects wRaw) [1, 2, 3] 10).length =
        [1, 2, 3].length ∧
      fetchLedgerObjects wCache (doFetchLedgerObjects wRaw) [1, 2, 3] 10 =
        [1, 2, 3].map fun k =>
          (fetchLedgerObject wCache (doFetchLedgerObject wRaw) k 10).getD []) :=
  ⟨by decide, fetchLedgerObjects_preserves_order wCache wRaw [1, 2, 3] 10 (by decide)⟩

/-- Claim C7: `fetchLedgerObject(K, S)` first consults the cache and, on a
miss, falls back to `doFetchLedgerObject`; whenever the resolved row's blob
is empty (a tombstone) the call returns `none`, regardless of whether the
blob was resolved from the cache (which never stores empty blobs) or from
the persistent store — so callers cannot distinguish a tombstone from
absence (the call never returns `some []`). -/
theorem fetchLedgerObject_tombstone (cacheGet : Key → Nat → Option Blob)
    (rawRead : Key → Nat → Blob) (key : Key) (sequence : Nat)
    (hcache : cacheGet key sequence ≠ some ([] : Blob)) :
    fetchLedgerObject cacheGet (doFetchLedgerObject rawRead) key sequence ≠ some [] ∧
    (∀ b, cacheGet key sequence = some b →
      fetchLedgerObject cacheGet (doFetchLedgerObject rawRead) key sequence = some b) ∧
    (cacheGet key sequence = none →
      fetchLedgerObject cacheGet (doFetchLedgerObject rawRead) key sequence =
        doFetchLedgerObject rawRead key sequence) ∧
    (cacheGet key sequence = none → rawRead key sequence = [] →
      fetchLedgerObject cacheGet (doFetchLedgerObject rawRead) key sequence = none) := by
  cases hc : cacheGet key sequence with
  | none =>
    refine ⟨?_, ?_, ?_, ?_⟩
    · intro hsome
      by_cases hr : (rawRead key sequence).length = 0
      · simp [fetchLedgerObject, doFetchLedgerObject, hc, hr] at hsome
      · have : rawRead key sequence = [] := by
          simpa [fetchLedgerObject, doFetchLedgerObject, hc, hr] using hsome
        exact hr (by simp [this])
    · intro b hb
      exact Option.noConfusion hb
    · intro _
      simp [fetchLedgerObject, hc]
    · intro _ hr
      simp [fetchLedgerObject, doFetchLedgerObject, hc, hr]
  | some b =>
    have hb : b ≠ [] := fun hb0 => hcache (hb0 ▸ hc)
    refine ⟨?_, ?_, ?_, ?_⟩
    · intro hsome
      have : b = [] := by simpa [fetchLedgerObject, hc] using hsome
      exact hb this
    · intro b' hb'
      have hbb : b = b' := Option.some.inj hb'
      simp [fetchLedgerObject, hc, hbb]
    · intro hnone
      exact Option.noConfusion hnone
    · intro hnone
      exact fun _ => Option.noConfusion hnone

theorem fetchLedgerObject_tombstone_witness :
    (wCache 3 10 ≠ some ([] : Blob)) ∧
    (fetchLedgerObject wCache (doFetchLedgerObject wRaw) 3 10 ≠ some [] ∧
      (∀ b, wCache 3 10 = some b →
        fetchLedgerObject wCache (doFetchLedgerObject wRaw) 3 10 = some b) ∧
      (wCache 3 10 = none →
        fetchLedgerObject wCache (doFetchLedgerObject wRaw) 3 10 =
          doFetchLedgerObject wRaw 3 10) ∧
      (wCache 3 10 = none → wRaw 3 10 = [] →
        fetchLedgerObject wCache (doFetchLedgerObject wRaw) 3 10 = none)) :=
  ⟨by decide, fetchLedgerObject_tombstone wCache wRaw 3 10 (by decide)⟩

/-- Claim C2: if `finishWrites(S)` returns true then the in-memory range is
advanced so that `range.max = S` afterwards (establishing `[S, S]` when the
range was empty); if it returns false — because `doFinishWrites` reported a
write failure or a failed conditional range update — the range is left
unchanged. -/
theorem finishWrites_advances_range (range : Option LedgerRange) (ledgerSequence : Nat) :
    finishWrites true range ledgerSequence = (true, updateRange range ledgerSequence) ∧
    (updateRange range ledgerSequence).map LedgerRange.maxSequence = some ledgerSequence ∧
    finishWrites false range ledgerSequence = (false, range) := by
  refine ⟨rfl, ?_, rfl⟩
  cases range <;> rfl

theorem executeSyncUpdateLoop_ok (appliedColumn : Option (Option Bool)) (timedOut : Bool) :
    executeSyncUpdateLoop appliedColumn [CassError.ok] timedOut =
      some (match appliedColumn with
        | none => false
        | some none => false
        | some (some success) => success || timedOut) := by
  simp [executeSyncUpdateLoop]

theorem executeSyncUpdateLoop_skip (appliedColumn : Option (Option Bool)) :
    ∀ pre : List CassError, (∀ rc ∈ pre, rc ≠ CassError.ok) → pre ≠ [] →
    ∀ rest : List CassError, ∀ timedOut : Bool,
    executeSyncUpdateLoop appliedColumn (pre ++ rest) timedOut =
      executeSyncUpdateLoop appliedColumn rest true
  | [], _, hne, _, _ => absurd rfl hne
  | rc :: pre', h, _, rest, timedOut => by
    have hrc : ¬(rc = CassError.ok) := h rc (List.mem_cons_self _ _)
    rw [List.cons_append]
    simp only [executeSyncUpdateLoop]
    rw [if_neg hrc]
    cases hpre' : pre' with
    | nil => simp
    | cons a l =>
      exact executeSyncUpdateLoop_skip appliedColumn (a :: l)
        (fun r hr => h r (hpre' ▸ List.mem_cons_of_mem _ hr)) (by simp) rest true

/-- Claim C3 counterexample: the claim says the return value of
`executeSyncUpdate` is true exactly when the server reports applied or a
timeout-class retry occurred during the call.  But the loop sets its
`timedOut` flag on every non-OK driver code: after a retried generic server
error (not one of the five timeout-class codes) and a final "not applied"
result, the call still returns true. -/
theorem executeSyncUpdate_timeoutclass_counterexample :
    executeSyncUpdate [CassError.serverOtherError, CassError.ok] (some (some false)) =
      some true ∧
    ([CassError.serverOtherError, CassError.ok].all fun rc => !isTimeout rc) = true := by
  decide

/-- Claim C3 as amended: a "not applied" result after any retried driver
error (the code flags every non-OK result, not only the five timeout-class
codes) is treated as possibly applied and `executeSyncUpdate` returns true;
"not applied" with no retry returns false.  When the final result row is
missing or its boolean column unreadable the call returns false regardless
of retries.  So the return value is true exactly when the readable applied
flag is set or at least one driver-error retry occurred. -/
theorem executeSyncUpdate_retry_semantics (pre : List CassError) (applied : Bool)
    (hpre : ∀ rc ∈ pre, rc ≠ CassError.ok) :
    executeSyncUpdate (pre ++ [CassError.ok]) (some (some applied)) =
      some (applied || !pre.isEmpty) ∧
    executeSyncUpdate (pre ++ [CassError.ok]) none = some false ∧
    executeSyncUpdate (pre ++ [CassError.ok]) (some none) = some false := by
  cases hp : pre with
  | nil =>
    refine ⟨?_, rfl, rfl⟩
    simp [executeSyncUpdate, executeSyncUpdateLoop]
  | cons a l =>
    have hne : pre ≠ [] := by simp [hp]
    refine ⟨?_, ?_, ?_⟩ <;>
      (rw [← hp, executeSyncUpdate,
        executeSyncUpdateLoop_skip _ pre hpre hne [CassError.ok] false,
        executeSyncUpdateLoop_ok]; try simp [hp])

theorem executeSyncUpdate_retry_semantics_witness :
    (∀ rc ∈ [CassError.serverReadTimeout], rc ≠ CassError.ok) ∧
    (executeSyncUpdate ([CassError.serverReadTimeout] ++ [CassError.ok]) (some (some false)) =
        some (false || !([CassError.serverReadTimeout].isEmpty)) ∧
      executeSyncUpdate ([CassError.serverReadTimeout] ++ [CassError.ok]) none = some false ∧
      executeSyncUpdate ([CassError.serverReadTimeout] ++ [CassError.ok]) (some none) =
        some false) :=
  ⟨by decide, executeSyncUpdate_retry_semantics [CassError.serverReadTimeout] false (by decide)⟩

theorem executeSyncRead_skip :
    ∀ pre : List CassError,
    (∀ rc ∈ pre, isTimeout rc = false ∧ rc ≠ CassError.serverInvalidQuery ∧
      rc ≠ CassError.ok) →
    ∀ rest : List CassError, executeSyncRead (pre ++ rest) = executeSyncRead rest
  | [], _, _ => rfl
  | rc :: pre', h, rest => by
    obtain ⟨ht, hi, ho⟩ := h rc (List.mem_cons_self _ _)
    rw [List.cons_append]
    simp only [executeSyncRead]
    rw [if_neg (by simp [ht]), if_neg hi, if_neg ho]
    exact executeSyncRead_skip pre' (fun r hr => h r (List.mem_cons_of_mem _ hr)) rest

/-- Claim C5: `executeSyncRead` raises `DatabaseTimeout` exactly when the
driver outcome is one of the five timeout-class errors (no hosts available,
request timed out, server unavailable, server overloaded, server read
timeout); an invalid-query outcome fails fast with a non-timeout error; any
other non-OK outcome is retried within the call (so a prefix of such
outcomes alone never resolves the call). -/
theorem executeSyncRead_timeout_classification (pre : List CassError)
    (hpre : ∀ rc ∈ pre, isTimeout rc = false ∧ rc ≠ CassError.serverInvalidQuery ∧
      rc ≠ CassError.ok) :
    (∀ e rest, isTimeout e = true →
      executeSyncRead (pre ++ e :: rest) = some SyncReadOutcome.databaseTimeout) ∧
    (∀ rest, executeSyncRead (pre ++ CassError.serverInvalidQuery :: rest) =
      some SyncReadOutcome.invalidQueryError) ∧
    (∀ rest, executeSyncRead (pre ++ CassError.ok :: rest) = some SyncReadOutcome.success) ∧
    executeSyncRead pre = none ∧
    (∀ rc, isTimeout rc = true ↔ (rc = CassError.libNoHostsAvailable ∨
      rc = CassError.libRequestTimedOut ∨ rc = CassError.serverUnavailable ∨
      rc = CassError.serverOverloaded ∨ rc = CassError.serverReadTimeout)) := by
  refine ⟨?_, ?_, ?_, ?_, ?_⟩
  · intro e rest he
    rw [executeSyncRead_skip pre hpre]
    simp [executeSyncRead, he]
  · intro rest
    rw [executeSyncRead_skip pre hpre]
    simp [executeSyncRead, isTimeout]
  · intro rest
    rw [executeSyncRead_skip pre hpre]
    simp [executeSyncRead, isTimeout]
  · have := executeSyncRead_skip pre hpre []
    rw [List.append_nil] at this
    exact this
  · intro rc
    cases rc <;> simp [isTimeout]

theorem executeSyncRead_timeout_classification_witness :
    (∀ rc ∈ [CassError.serverOtherError],
      isTimeout rc = false ∧ rc ≠ CassError.serverInvalidQuery ∧ rc ≠ CassError.ok) ∧
    ((∀ e rest, isTimeout e = true →
        executeSyncRead ([CassError.serverOtherError] ++ e :: rest) =
          some SyncReadOutcome.databaseTimeout) ∧
      (∀ rest, executeSyncRead ([CassError.serverOtherError] ++
        CassError.serverInvalidQuery :: rest) = some SyncReadOutcome.invalidQueryError) ∧
      (∀ rest, executeSyncRead ([CassError.serverOtherError] ++ CassError.ok :: rest) =
        some SyncReadOutcome.success) ∧
      executeSyncRead [CassError.serverOtherError] = none ∧
      (∀ rc, isTimeout rc = true ↔ (rc = CassError.libNoHostsAvailable ∨
        rc = CassError.libRequestTimedOut ∨ rc = CassError.serverUnavailable ∨
        rc = CassError.serverOverloaded ∨ rc = CassError.serverReadTimeout))) :=
  ⟨by decide, executeSyncRead_timeout_classification [CassError.serverOtherError] (by decide)⟩

/-- Claim C6: `hardFetchLedgerRangeNoThrow` calls the underlying
`hardFetchLedgerRange` repeatedly, retrying only on `DatabaseTimeout`, and
returns the first successfully fetched range after exactly one call per
behaviour consumed; any non-timeout exception propagates to the caller at
the same call count. -/
theorem hardFetchLedgerRangeNoThrow_retries (pre : List HardFetchResult)
    (hpre : ∀ x ∈ pre, x = HardFetchResult.databaseTimeout) :
    (∀ r rest, hardFetchLedgerRangeNoThrow (pre ++ HardFetchResult.value r :: rest) =
      NoThrowOutcome.returns r (pre.length + 1)) ∧
    (∀ rest, hardFetchLedgerRangeNoThrow (pre ++ HardFetchResult.otherException :: rest) =
      NoThrowOutcome.throws (pre.length + 1)) := by
  induction pre with
  | nil => exact ⟨fun r rest => rfl, fun rest => rfl⟩
  | cons x pre' ih =>
    have hx : x = HardFetchResult.databaseTimeout := hpre x (List.mem_cons_self _ _)
    have ih' := ih (fun y hy => hpre y (List.mem_cons_of_mem _ hy))
    subst hx
    refine ⟨fun r rest => ?_, fun rest => ?_⟩
    · rw [List.cons_append]
      simp only [hardFetchLedgerRangeNoThrow]
      rw [ih'.1 r rest]
      simp [List.length_cons]
    · rw [List.cons_append]
      simp only [hardFetchLedgerRangeNoThrow]
      rw [ih'.2 rest]
      simp [List.length_cons]

theorem hardFetchLedgerRangeNoThrow_retries_witness :
    (∀ x ∈ [HardFetchResult.databaseTimeout, HardFetchResult.databaseTimeout],
      x = HardFetchResult.databaseTimeout) ∧
    hardFetchLedgerRangeNoThrow
        [HardFetchResult.databaseTimeout, HardFetchResult.databaseTimeout,
          HardFetchResult.value (some { minSequence := 1, maxSequence := 100 })] =
      NoThrowOutcome.returns (some { minSequence := 1, maxSequence := 100 }) 3 ∧
    (∀ r rest, hardFetchLedgerRangeNoThrow
        ([HardFetchResult.databaseTimeout, HardFetchResult.databaseTimeout] ++
          HardFetchResult.value r :: rest) =
      NoThrowOutcome.returns r
        ([HardFetchResult.databaseTimeout, HardFetchResult.databaseTimeout].length + 1)) :=
  ⟨by decide, by decide,
    (hardFetchLedgerRangeNoThrow_retries
      [HardFetchResult.databaseTimeout, HardFetchResult.databaseTimeout] (by decide)).1⟩

theorem zip_map_mk (f : Key → Blob) :
    ∀ l : List Key,
    (l.zip (l.map f)).map (fun p => LedgerObject.mk p.1 p.2) =
      l.map fun k => LedgerObject.mk k (f k)
  | [] => rfl
  | k :: ks => by
    simp only [List.map_cons, List.zip_cons_cons]
    rw [zip_map_mk f ks]

theorem chainFrom_collect (succ : Key → Nat → Option Key) (sequence : Nat) :
    ∀ (fuel : Nat) (cur : Key),
    chainFrom (fun k => succ k sequence) cur (collectLedgerPageKeys succ sequence cur fuel)
  | 0, cur => trivial
  | n + 1, cur => by
    cases hs : succ cur sequence with
    | none => simp [collectLedgerPageKeys, hs, chainFrom]
    | some k =>
      simp only [collectLedgerPageKeys, hs]
      exact ⟨hs, chainFrom_collect succ sequence n k⟩

theorem collectLedgerPageKeys_length_le (succ : Key → Nat → Option Key) (sequence : Nat) :
    ∀ (fuel : Nat) (cur : Key),
    (collectLedgerPageKeys succ sequence cur fuel).length ≤ fuel
  | 0, _ => Nat.le_refl _
  | n + 1, cur => by
    cases hs : succ cur sequence with
    | none => simp [collectLedgerPageKeys, hs]
    | some k =>
      simp only [collectLedgerPageKeys, hs, List.length_cons]
      exact Nat.succ_le_succ (collectLedgerPageKeys_length_le succ sequence n k)

theorem collectLedgerPageKeys_short (succ : Key → Nat → Option Key) (sequence : Nat) :
    ∀ (fuel : Nat) (cur : Key),
    (collectLedgerPageKeys succ sequence cur fuel).length < fuel →
    succ ((collectLedgerPageKeys succ sequence cur fuel).getLastD cur) sequence = none
  | 0, cur, h => absurd h (by simp)
  | n + 1, cur, h => by
    cases hs : succ cur sequence with
    | none =>
      simp only [collectLedgerPageKeys, hs]
      exact hs
    | some k =>
      have h' : (collectLedgerPageKeys succ sequence k n).length < n := by
        rw [collectLedgerPageKeys] at h
        simp only [hs, List.length_cons] at h
        omega
      have hrec := collectLedgerPageKeys_short succ sequence n k h'
      simp only [collectLedgerPageKeys, hs]
      rw [List.getLastD_cons]
      exact hrec

/-- Claim C4: `fetchLedgerPage(cursor, seq, limit)` iterates successor keys
starting from `cursor` (or `firstKey` when the cursor is absent) — the
returned keys form a successor chain — collects keys until either `limit`
keys are collected or no successor exists (a short page means the successor
of its last key is `none`), batch-fetches the objects for those keys, and
sets the returned forward cursor to the last returned key exactly when the
page contains at least `limit` objects: no cursor is returned on a short
final page. -/
theorem fetchLedgerPage_paginates (cacheSucc : Key → Nat → Option LedgerObject)
    (dbSucc : Key → Nat → Option Key) (cacheGet : Key → Nat → Option Blob)
    (rawRead : Key → Nat → Blob) (cursor : Option Key) (ledgerSequence limit : Nat)
    (hcache : ∀ k, cacheGet k ledgerSequence ≠ some ([] : Blob)) :
    chainFrom (fun k => fetchSuccessorKey cacheSucc dbSucc k ledgerSequence)
      (cursor.getD firstKey)
      ((fetchLedgerPage cacheSucc dbSucc cacheGet rawRead cursor ledgerSequence
        limit).objects.map LedgerObject.key) ∧
    (fetchLedgerPage cacheSucc dbSucc cacheGet rawRead cursor ledgerSequence
      limit).objects.length ≤ limit ∧
    ((fetchLedgerPage cacheSucc dbSucc cacheGet rawRead cursor ledgerSequence
        limit).objects.length < limit →
      fetchSuccessorKey cacheSucc dbSucc
        (((fetchLedgerPage cacheSucc dbSucc cacheGet rawRead cursor ledgerSequence
          limit).objects.map LedgerObject.key).getLastD (cursor.getD firstKey))
        ledgerSequence = none) ∧
    (∀ o ∈ (fetchLedgerPage cacheSucc dbSucc cacheGet rawRead cursor ledgerSequence
        limit).objects,
      o.blob = (fetchLedgerObject cacheGet (doFetchLedgerObject rawRead) o.key
        ledgerSequence).getD []) ∧
    (limit ≤ (fetchLedgerPage cacheSucc dbSucc cacheGet rawRead cursor ledgerSequence
        limit).objects.length →
      (fetchLedgerPage cacheSucc dbSucc cacheGet rawRead cursor ledgerSequence
        limit).cursor =
        ((fetchLedgerPage cacheSucc dbSucc cacheGet rawRead cursor ledgerSequence
          limit).objects.map LedgerObject.key).getLast?) ∧
    ((fetchLedgerPage cacheSucc dbSucc cacheGet rawRead cursor ledgerSequence
        limit).objects.length < limit →
      (fetchLedgerPage cacheSucc dbSucc cacheGet rawRead cursor ledgerSequence
        limit).cursor = none) := by
  have hobj : (fetchLedgerPage cacheSucc dbSucc cacheGet rawRead cursor ledgerSequence
      limit).objects =
      (collectLedgerPageKeys (fetchSuccessorKey cacheSucc dbSucc) ledgerSequence
        (cursor.getD firstKey) limit).map
        (fun k => LedgerObject.mk k
          ((fetchLedgerObject cacheGet (doFetchLedgerObject rawRead) k
            ledgerSequence).getD [])) := by
    simp only [fetchLedgerPage]
    rw [fetchLedgerObjects_eq_map cacheGet rawRead _ ledgerSequence (fun k _ => hcache k)]
    exact zip_map_mk _ _
  have hkeys : (fetchLedgerPage cacheSucc dbSucc cacheGet rawRead cursor ledgerSequence
      limit).objects.map LedgerObject.key =
      collectLedgerPageKeys (fetchSuccessorKey cacheSucc dbSucc) ledgerSequence
        (cursor.getD firstKey) limit := by
    rw [hobj, List.map_map]
    have hcomp : (LedgerObject.key ∘ fun k : Key =>
        LedgerObject.mk k ((fetchLedgerObject cacheGet (doFetchLedgerObject rawRead) k
          ledgerSequence).getD [])) = fun k : Key => k := rfl
    rw [hcomp]
    simp
  have hcursor : (fetchLedgerPage cacheSucc dbSucc cacheGet rawRead cursor ledgerSequence
      limit).cursor =
      if limit ≤ (fetchLedgerPage cacheSucc dbSucc cacheGet rawRead cursor ledgerSequence
          limit).objects.length then
        (fetchLedgerPage cacheSucc dbSucc cacheGet rawRead cursor ledgerSequence
          limit).objects.getLast?.map LedgerObject.key
      else none := rfl
  refine ⟨?_, ?_, ?_, ?_, ?_, ?_⟩
  · rw [hkeys]
    exact chainFrom_collect _ _ _ _
  · rw [hobj, List.length_map]
    exact collectLedgerPageKeys_length_le _ _ _ _
  · intro h
    rw [hkeys]
    apply collectLedgerPageKeys_short
    rw [hobj, List.length_map] at h
    exact h
  · intro o ho
    rw [hobj] at ho
    obtain ⟨k, hk, rfl⟩ := List.mem_map.mp ho
    rfl
  · intro h
    rw [hcursor, if_pos h]
    exact (List.getLast?_map _ _).symm
  · intro h
    rw [hcursor, if_neg (by omega)]

/-- Successor relation used by the pagination witness: three live keys
`1 < 2 < 3` with `firstKey = 0` preceding them. -/
def wSucc : Key → Nat → Option Key := fun k _ =>
  if k = 0 then some 1 else if k = 1 then some 2 else if k = 2 then some 3 else none

/-- Cache successor lookup that always misses (everything resolved in the store). -/
def wCacheSuccNone : Key → Nat → Option LedgerObject := fun _ _ => none

/-- Object cache that always misses. -/
def wCacheNone : Key → Nat → Option Blob := fun _ _ => none

/-- Raw store for the pagination witness: keys 1, 2, 3 hold one-byte blobs. -/
def wRaw3 : Key → Nat → Blob := fun k _ =>
  if k = 1 then [1] else if k = 2 then [2] else if k = 3 then [3] else []

theorem fetchLedgerPage_paginates_witness :
    (∀ k, wCacheNone k 10 ≠ some ([] : Blob)) ∧
    chainFrom (fun k => fetchSuccessorKey wCacheSuccNone wSucc k 10)
      ((none : Option Key).getD firstKey)
      ((fetchLedgerPage wCacheSuccNone wSucc wCacheNone wRaw3 none 10
        2).objects.map LedgerObject.key) ∧
    fetchLedgerPage wCacheSuccNone wSucc wCacheNone wRaw3 none 10 2 =
      { objects := [{ key := 1, blob := [1] }, { key := 2, blob := [2] }]
        cursor := some 2 } ∧
    fetchLedgerPage wCacheSuccNone wSucc wCacheNone wRaw3 (some 2) 10 2 =
      { objects := [{ key := 3, blob := [3] }], cursor := none } :=
  ⟨fun k h => by simp [wCacheNone] at h,
    (fetchLedgerPage_paginates wCacheSuccNone wSucc wCacheNone wRaw3 none 10 2
      (fun k h => by simp [wCacheNone] at h)).1,
    by decide, by decide⟩

/-- Claim C8 (code bug): the claimed cap invariant — at most
`maxRequestsOutstanding` async writes in flight — does not hold, because
`incremementOutstandingRequestCount` performs `++numRequestsOutstanding_`
after the scope holding `throttleMutex_` has ended.  With cap 2 and three
writers, all three can pass the guarded wait (each observing the counter
below the cap) before any of them increments; every step below is enabled
in the modelled protocol, yet the run ends with three requests in flight. -/
theorem throttle_cap_exceeded :
    runPipeline
        { cap := 2, numRequestsOutstanding := 0,
          writers := [WriterPc.toAdmit, WriterPc.toAdmit, WriterPc.toAdmit] }
        [PipelineAction.passGate 0, PipelineAction.passGate 1, PipelineAction.passGate 2,
          PipelineAction.increment 0, PipelineAction.increment 1,
          PipelineAction.increment 2] =
      some
        { cap := 2, numRequestsOutstanding := 3,
          writers := [WriterPc.issued, WriterPc.issued, WriterPc.issued] } ∧
    2 < 3 := by
  decide

/-- Claim C9: `bindNextBoolean` binds the boolean at statement parameter
index 1 — a fixed position, not the current binding index — while still
advancing the current binding index by one.  In the two range statements
issued by `doFinishWrites` the boolean is the second parameter, so every
value lands at its positional index there (the boolean reaches the intended
column exactly because it is the second parameter). -/
theorem bindNextBoolean_fixed_index :
    (∀ st val, (bindNextBoolean st val).bindings =
        st.bindings ++ [(1, BoundValue.boolean val)] ∧
      (bindNextBoolean st val).curBindingIndex = st.curBindingIndex + 1) ∧
    (∀ ledgerSequence : Nat,
      (doFinishWritesCasStatement ledgerSequence).bindings =
        [(0, BoundValue.bigint (Int.ofNat (ledgerSequence % 2 ^ 32))),
          (1, BoundValue.boolean true),
          (2, BoundValue.bigint
            (Int.ofNat ((ledgerSequence % 2 ^ 32 + 2 ^ 32 - 1) % 2 ^ 32)))]) ∧
    (∀ ledgerSequence : Nat,
      (doFinishWritesInsertStatement ledgerSequence).bindings =
        [(0, BoundValue.bigint (Int.ofNat (ledgerSequence % 2 ^ 32))),
          (1, BoundValue.boolean false),
          (2, BoundValue.bigint (Int.ofNat (ledgerSequence % 2 ^ 32)))]) :=
  ⟨fun _ _ => ⟨rfl, rfl⟩, fun _ => rfl, fun _ => rfl⟩

/-- Claim C10: the outstanding-request counter never underflows:
`decrementOutstandingRequestCount` raises an error (`none`) exactly when the
counter is already zero; otherwise it decrements the counter by one, always
notifies the throttle condition variable, and notifies the sync condition
variable exactly when the decremented count reaches zero. -/
theorem decrementOutstandingRequestCount_spec :
    (∀ n, (decrementOutstandingRequestCount n).isNone = (n == 0)) ∧
    decrementOutstandingRequestCount 0 = none ∧
    (∀ n, decrementOutstandingRequestCount (n + 1) =
      some { numRequestsOutstanding := n, throttleNotified := true,
             syncNotified := n == 0 }) :=
  ⟨fun n => by cases n <;> rfl, rfl, fun _ => rfl⟩
